import Mathlib

/-!
Verification development for `monitor_active_etfs.py`, an ETF-holdings monitor.

The program fetches the constituent holdings of actively managed ETFs,
persists dated CSV snapshots, diffs the two most recent snapshots per fund
(`compare_holdings`), and renders an HTML change report.

This file gives a shallow embedding of the data model and the pure core of
the program:

* `Row` / `Frame` model a pandas `DataFrame` of holdings rows: an ordered
  list of records, with a flag recording whether the `ETF` column is
  present.  Numeric columns are embedded as exact rationals (the Python
  code manipulates floats; all constants relevant to the statements below
  are small decimals, represented exactly).
* `compare_holdings` embeds the function of the same name (source lines
  181-235), including the mutation of its arguments at lines 189-190:
  the result records the post-call state of both input frames.
* pandas index operations are embedded after their documented semantics:
  `Index.difference` returns the deduplicated values of `self` not in
  `other`, sorted ascending (default `sort=None`); `Index.intersection`
  (default `sort=False`) returns deduplicated values in `self` order;
  `.loc[keys]` returns, for each key in order, all rows carrying that key
  in frame order; `DataFrame.sort_values(ascending=False)` computes a
  stable ascending argsort and reverses it (pandas `nargsort`; numpy's
  sort is insertion sort, hence stable, on the small partitions used by
  every concrete input in this file).
* `fetch_holdings` embeds the `UnifiedScraper.fetch_holdings` parsing
  logic (lines 49-104): a request error yields `none`; a malformed numeric
  field raises inside the `try` block, which is caught and yields `none`;
  an empty holdings list yields `none` (line 95-97).
* `monitorStep` embeds the snapshot-write / history-selection logic of
  `monitor_etfs` (lines 131-170).
-/

namespace ETFMonitor

/-- One holdings row.  The `etf` field models the value of the `ETF`
column; it is meaningful only when the enclosing `Frame` has
`hasETF = true` (a CSV file without an `ETF` column loads with this field
not yet populated). -/
structure Row where
  stock_id : String
  stock_name : String
  shares : ℚ
  weight : ℚ
  amount : ℚ
  etf : String
deriving Repr, DecidableEq

/-- A holdings table: pandas `DataFrame` with columns
`stock_id, stock_name, shares, weight, amount[, ETF]`.  `hasETF` records
whether the `ETF` column is present. -/
structure Frame where
  hasETF : Bool
  rows : List Row
deriving Repr, DecidableEq

/-- The hardcoded default fund code (source lines 164, 189, 190). -/
def DEFAULT_ETF : String := "00981A"

/-- Lines 189-190: `if 'ETF' not in df.columns: df['ETF'] = '00981A'`.
This mutates the caller's frame when the column is missing. -/
def ensureETF (df : Frame) : Frame :=
  if df.hasETF then df
  else ⟨true, df.rows.map (fun r => { r with etf := DEFAULT_ETF })⟩

/-- The index of a `stock_id`-indexed frame (`set_index('stock_id')`). -/
def keysOf (rows : List Row) : List String := rows.map (·.stock_id)

/-- Strict lexicographic comparison of two character lists by code
point.  Python compares strings exactly this way. -/
def charListLt : List Char → List Char → Bool
  | _, [] => false
  | [], _ :: _ => true
  | a :: as, b :: bs =>
      if a.toNat < b.toNat then true
      else if b.toNat < a.toNat then false
      else charListLt as bs

/-- Python string order `a <= b`: not `b < a`. -/
def strLe (a b : String) : Bool := !(charListLt b.data a.data)

/-- Stable ascending sort on strings, modelling Python `sorted` (timsort,
stable) and pandas index sorting (numpy stable/insertion sort on the
small inputs evaluated here); insertion sort is stable and produces the
same list as any stable ascending sort. -/
def pySortStr (l : List String) : List String :=
  List.insertionSort (fun a b => strLe a b = true) l

def uniqueFirstAux : List String → List String → List String
  | [], acc => acc.reverse
  | a :: l, acc =>
      if a ∈ acc then uniqueFirstAux l acc else uniqueFirstAux l (a :: acc)

/-- pandas deduplication (`Index.unique` / `Series.unique`): keep the
first occurrence of each value, in order of first appearance. -/
def uniqueFirst (l : List String) : List String := uniqueFirstAux l []

/-- pandas `Index.difference` (default `sort=None`): deduplicated values
of `self` not in `other`, sorted ascending. -/
def idxDiff (a b : List String) : List String :=
  pySortStr (uniqueFirst (a.filter (fun x => decide (x ∉ b))))

/-- pandas `Index.intersection` (default `sort=False`): deduplicated
values of `self` that occur in `other`, in `self` order. -/
def idxInter (a b : List String) : List String :=
  uniqueFirst (a.filter (fun x => decide (x ∈ b)))

/-- pandas `df.loc[keys]` on a `stock_id`-indexed frame: for each key in
list order, all rows carrying that key, in frame order. -/
def locRows (rows : List Row) (keys : List String) : List Row :=
  keys.flatMap (fun k => rows.filter (fun r => r.stock_id == k))

/-- The weight tolerance of line 217: `0.001 = 1/1000` exactly (written
with `Rat.divInt` so that concrete runs reduce inside the kernel). -/
def WEIGHT_EPSILON : ℚ := Rat.divInt 1 1000

/-- Line 217: `(weight_diff.abs() > 0.001) | (shares_diff.abs() > 0)`. -/
def changedMask (c p : Row) : Bool :=
  decide (|c.weight - p.weight| > WEIGHT_EPSILON ∨ |c.shares - p.shares| > 0)

/-- One row of the `changed_df` frame built at lines 219-227. -/
structure ChangedRow where
  stock_id : String
  stock_name : String
  weight_prev : ℚ
  weight_curr : ℚ
  weight_diff : ℚ
  shares_prev : ℚ
  shares_curr : ℚ
  shares_diff : ℚ
deriving Repr, DecidableEq

def mkChangedRow (c p : Row) : ChangedRow :=
  { stock_id := c.stock_id
    stock_name := c.stock_name
    weight_prev := p.weight
    weight_curr := c.weight
    weight_diff := c.weight - p.weight
    shares_prev := p.shares
    shares_curr := c.shares
    shares_diff := c.shares - p.shares }

/-- Line 232: `changed_df.sort_values(by='weight_diff', ascending=False)`.
pandas `nargsort` computes an ascending argsort and reverses the indexer
for `ascending=False`; on the small inputs evaluated concretely below,
numpy's argsort is insertion sort and hence stable, so the embedding is a
stable ascending sort followed by a reversal. -/
def sortChanged (l : List ChangedRow) : List ChangedRow :=
  (List.insertionSort (fun a b => a.weight_diff ≤ b.weight_diff) l).reverse

/-- The per-fund value stored in the `changes` dict (lines 229-233). -/
structure Delta where
  new : List Row
  exit : List Row
  changed : List ChangedRow
deriving Repr, DecidableEq

/-- The loop body of `compare_holdings` for one fund (lines 195-233),
acting on the fund's current and previous rows (already
`stock_id`-indexed).  The positional `zip` embeds the pandas column
arithmetic of lines 212-213, which aligns the two `.loc[common_stocks]`
selections; the two index lists are equal whenever each common key is
unique in both frames, in which case pandas pairs the rows positionally
exactly as the `zip` does. -/
def perEtfDelta (curr_etf prev_etf : List Row) : Delta :=
  let new_stocks := idxDiff (keysOf curr_etf) (keysOf prev_etf)
  let new_df := locRows curr_etf new_stocks
  let exited_stocks := idxDiff (keysOf prev_etf) (keysOf curr_etf)
  let exit_df := locRows prev_etf exited_stocks
  let common_stocks := idxInter (keysOf curr_etf) (keysOf prev_etf)
  let curr_common := locRows curr_etf common_stocks
  let prev_common := locRows prev_etf common_stocks
  let pairs := curr_common.zip prev_common
  let changed :=
    (pairs.filter (fun cp => changedMask cp.1 cp.2)).map
      (fun cp => mkChangedRow cp.1 cp.2)
  ⟨new_df, exit_df, sortChanged changed⟩

/-- The result of `compare_holdings`: the post-call state of both
argument frames (they are mutated at lines 189-190 when the `ETF` column
is missing) and the `changes` dict, as an association list in insertion
order. -/
structure CompareResult where
  dfCurrAfter : Frame
  dfPrevAfter : Frame
  changes : List (String × Delta)
deriving Repr, DecidableEq

/-- The rows of one fund inside a frame:
`df[df['ETF'] == etf].set_index('stock_id')` (lines 195-196), applied to
the frame as it stands after the `ETF`-column default of lines 189-190. -/
def fundRows (df : Frame) (etf : String) : List Row :=
  (ensureETF df).rows.filter (fun r => r.etf == etf)

/-- Function `compare_holdings(df_curr, df_prev)` (lines 181-235).  The
iteration is over `df_curr['ETF'].unique()` (line 192): only funds
present in the current frame receive an entry. -/
def compare_holdings (df_curr df_prev : Frame) : CompareResult :=
  let dfc := ensureETF df_curr
  let dfp := ensureETF df_prev
  let etfs := uniqueFirst (dfc.rows.map (·.etf))
  ⟨dfc, dfp,
    etfs.map (fun e => (e, perEtfDelta (fundRows df_curr e) (fundRows df_prev e)))⟩

/-! ### Fetcher (`UnifiedScraper.fetch_holdings`, lines 34-104) -/

/-- One entry of an asset item's `Details` array.  A numeric field is
`some q` when `float(...)` on it succeeds with value `q` (a missing field
defaults to `0`, on which `float` succeeds), and `none` when the value is
non-numeric, so that `float(...)` raises. -/
structure Detail where
  detailCode : String
  detailName : String
  share : Option ℚ
  navRate : Option ℚ
  amount : Option ℚ
deriving Repr, DecidableEq

/-- One element of the decoded `DataAsset` JSON array.  `details = none`
models an item without a `'Details'` key. -/
structure AssetItem where
  assetCode : String
  details : Option (List Detail)
deriving Repr, DecidableEq

/-- Lines 87-93: build one holdings dict from a detail entry; `none` when
one of the three `float(...)` calls raises. -/
def parseDetail (d : Detail) : Option Row := do
  let s ← d.share
  let w ← d.navRate
  let a ← d.amount
  pure ⟨d.detailCode, d.detailName, s, w, a, ""⟩

/-- Lines 84-93: the contribution of one asset item to `holdings`.  Items
whose `AssetCode` is not `'ST'` or without a `'Details'` key contribute
nothing; a `float` failure inside propagates as `none`. -/
def parseItem (it : AssetItem) : Option (List Row) :=
  if it.assetCode == "ST" then
    match it.details with
    | some ds => ds.mapM parseDetail
    | none => some []
  else some []

/-- Lines 83-93: the whole `holdings` accumulation inside the `try`
block; any raised `float` error aborts it (`none`), discarding rows
already accumulated. -/
def buildHoldings (data : List AssetItem) : Option (List Row) :=
  (data.mapM parseItem).map List.flatten

/-- The input to `fetch_holdings` as far as the embedded logic is
concerned: either the HTTP request raised (lines 52-54) or it delivered a
page whose `DataAsset` JSON decodes to `data`. -/
inductive FetchInput
  | reqError
  | page (data : List AssetItem)
deriving Repr, DecidableEq

/-- Method `UnifiedScraper.fetch_holdings` (lines 49-104): `none` on
request error; `none` when parsing raises (caught at line 101); `none`
when the parsed holdings list is empty (lines 95-97); otherwise the
holdings frame, which carries no `ETF` column. -/
def fetch_holdings : FetchInput → Option Frame
  | .reqError => none
  | .page data =>
      match buildHoldings data with
      | none => none
      | some hs => if hs.isEmpty then none else some ⟨false, hs⟩

/-! ### Snapshot write and history selection (`monitor_etfs`, lines 131-170) -/

/-- Line 136: `etf_holdings_{timestamp}.csv`. -/
def snapshotName (timestamp : String) : String :=
  "etf_holdings_" ++ timestamp ++ ".csv"

/-- Line 143: the filename filter of the directory listing,
`f.startswith('etf_holdings_') and f.endswith('.csv')`, expressed on the
character lists. -/
def isSnapshotFile (f : String) : Bool :=
  "etf_holdings_".data.isPrefixOf f.data && ".csv".data.isSuffixOf f.data

/-- The directory listing after the snapshot write at line 137: writing
`to_csv` overwrites an existing file of the same name and otherwise adds
a new name. -/
def dirAfterWrite (dir : List String) (timestamp : String) : List String :=
  if snapshotName timestamp ∈ dir then dir else dir ++ [snapshotName timestamp]

/-- Line 143: `sorted([f for f in os.listdir(OUTPUT_DIR) if ...])`,
evaluated after the write.  Python `sorted` on strings is lexicographic
by code point, as is `String` order here. -/
def filesAfter (dir : List String) (timestamp : String) : List String :=
  pySortStr ((dirAfterWrite dir timestamp).filter isSnapshotFile)

/-- The observable outcome of one `monitor_etfs` store/diff phase:
which snapshot file was written, and which pair `(previous, current)` of
files was handed to the comparison, `none` when the history was
insufficient and the phase was skipped (lines 169-170). -/
structure MonitorOutcome where
  saved : Option String
  comparePair : Option (String × String)
deriving Repr, DecidableEq

/-- Lines 131-170 of `monitor_etfs`: when data was fetched, write the
dated snapshot, list and sort the snapshot files, and when at least two
exist compare the last two (`files[-2]` as previous, `files[-1]` as
current); otherwise skip the comparison. -/
def monitorStep (hasData : Bool) (dir : List String) (timestamp : String) :
    MonitorOutcome :=
  if hasData then
    let files := filesAfter dir timestamp
    if 2 ≤ files.length then
      { saved := some (snapshotName timestamp)
        comparePair :=
          some (files.getD (files.length - 2) "", files.getD (files.length - 1) "") }
    else
      { saved := some (snapshotName timestamp), comparePair := none }
  else { saved := none, comparePair := none }

/-! ### Order lemmas for the string comparison -/

theorem charListLt_irrefl : ∀ l : List Char, charListLt l l = false
  | [] => rfl
  | a :: as => by
      simp only [charListLt]
      rw [if_neg (Nat.lt_irrefl _), if_neg (Nat.lt_irrefl _)]
      exact charListLt_irrefl as

theorem charListLt_asymm :
    ∀ {a b : List Char}, charListLt a b = true → charListLt b a = false
  | _, [], h => by simp [charListLt] at h
  | [], _ :: _, _ => rfl
  | a :: as, b :: bs, h => by
      simp only [charListLt] at h ⊢
      rcases Nat.lt_trichotomy a.toNat b.toNat with hab | hab | hab
      · rw [if_neg (by omega), if_pos hab]
      · rw [if_neg (by omega), if_neg (by omega)] at h ⊢
        exact charListLt_asymm h
      · rw [if_neg (by omega), if_pos hab] at h
        exact absurd h (by simp)

theorem charListLt_trans :
    ∀ {a b c : List Char}, charListLt a b = true → charListLt b c = true →
      charListLt a c = true
  | _, _, [], _, h2 => by simp [charListLt] at h2
  | _, [], _ :: _, h1, _ => by simp [charListLt] at h1
  | [], _ :: _, _ :: _, _, _ => rfl
  | a :: as, b :: bs, c :: cs, h1, h2 => by
      simp only [charListLt] at h1 h2 ⊢
      rcases Nat.lt_trichotomy a.toNat b.toNat with hab | hab | hab <;>
        rcases Nat.lt_trichotomy b.toNat c.toNat with hbc | hbc | hbc
      · rw [if_pos (by omega)]
      · rw [if_pos (by omega)]
      · rw [if_neg (by omega), if_pos (by omega)] at h2
        exact absurd h2 (by simp)
      · rw [if_pos (by omega)]
      · rw [if_neg (by omega), if_neg (by omega)] at h1 h2 ⊢
        exact charListLt_trans h1 h2
      · rw [if_neg (by omega), if_pos (by omega)] at h2
        exact absurd h2 (by simp)
      · rw [if_neg (by omega), if_pos (by omega)] at h1
        exact absurd h1 (by simp)
      · rw [if_neg (by omega), if_pos (by omega)] at h1
        exact absurd h1 (by simp)
      · rw [if_neg (by omega), if_pos (by omega)] at h1
        exact absurd h1 (by simp)

theorem charListLt_eq_of_not :
    ∀ (a b : List Char), charListLt a b = false → charListLt b a = false → a = b
  | [], [], _, _ => rfl
  | [], _ :: _, h1, _ => by simp [charListLt] at h1
  | _ :: _, [], _, h2 => by simp [charListLt] at h2
  | a :: as, b :: bs, h1, h2 => by
      simp only [charListLt] at h1 h2
      rcases Nat.lt_trichotomy a.toNat b.toNat with hab | hab | hab
      · rw [if_pos hab] at h1
        exact absurd h1 (by simp)
      · have hc : a = b := Char.eq_of_val_eq (UInt32.toNat.inj hab)
        rw [if_neg (by omega), if_neg (by omega)] at h1 h2
        rw [hc, charListLt_eq_of_not as bs h1 h2]
      · rw [if_pos hab] at h2
        exact absurd h2 (by simp)

theorem strLe_total (a b : String) : strLe a b = true ∨ strLe b a = true := by
  simp only [strLe, Bool.not_eq_true']
  by_cases h : charListLt b.data a.data = true
  · exact Or.inr (charListLt_asymm h)
  · exact Or.inl (by simpa using h)

theorem strLe_trans {a b c : String} (h1 : strLe a b = true)
    (h2 : strLe b c = true) : strLe a c = true := by
  simp only [strLe, Bool.not_eq_true'] at h1 h2 ⊢
  by_cases hca : charListLt c.data a.data = true
  · exfalso
    by_cases hbc : charListLt b.data c.data = true
    · have hba : charListLt b.data a.data = true := charListLt_trans hbc hca
      rw [hba] at h1
      exact absurd h1 (by simp)
    · have hb : b.data = c.data :=
        charListLt_eq_of_not _ _ (by simpa using hbc) h2
      rw [← hb] at hca
      rw [hca] at h1
      exact absurd h1 (by simp)
  · simpa using hca

theorem strLe_antisymm {a b : String} (h1 : strLe a b = true)
    (h2 : strLe b a = true) : a = b := by
  simp only [strLe, Bool.not_eq_true'] at h1 h2
  have hd : a.data = b.data := charListLt_eq_of_not _ _ h2 h1
  cases a
  cases b
  exact congrArg String.mk (by simpa using hd)

theorem strLe_refl (a : String) : strLe a a = true := by
  simp [strLe, charListLt_irrefl]

instance : IsTotal String (fun a b => strLe a b = true) := ⟨strLe_total⟩

instance : IsTrans String (fun a b => strLe a b = true) :=
  ⟨fun _ _ _ => strLe_trans⟩

instance : IsAntisymm String (fun a b => strLe a b = true) :=
  ⟨fun _ _ => strLe_antisymm⟩

instance : IsTotal ChangedRow (fun a b => a.weight_diff ≤ b.weight_diff) :=
  ⟨fun a b => le_total a.weight_diff b.weight_diff⟩

instance : IsTrans ChangedRow (fun a b => a.weight_diff ≤ b.weight_diff) :=
  ⟨fun _ _ _ h1 h2 => le_trans h1 h2⟩

/-! ### Sorting and deduplication lemmas -/

theorem pySortStr_perm (l : List String) : List.Perm (pySortStr l) l :=
  List.perm_insertionSort _ l

theorem pySortStr_sorted (l : List String) :
    (pySortStr l).Sorted (fun a b => strLe a b = true) :=
  List.sorted_insertionSort _ l

theorem mem_pySortStr {x : String} {l : List String} :
    x ∈ pySortStr l ↔ x ∈ l :=
  (pySortStr_perm l).mem_iff

theorem pySortStr_nodup {l : List String} (h : l.Nodup) :
    (pySortStr l).Nodup :=
  ((pySortStr_perm l).nodup_iff).mpr h

theorem mem_uniqueFirstAux :
    ∀ (l acc : List String) (x : String),
      x ∈ uniqueFirstAux l acc ↔ x ∈ l ∨ x ∈ acc
  | [], acc, x => by simp [uniqueFirstAux]
  | a :: l, acc, x => by
      by_cases h : a ∈ acc
      · rw [uniqueFirstAux, if_pos h, mem_uniqueFirstAux l acc x]
        simp only [List.mem_cons]
        constructor
        · intro hx
          rcases hx with hx | hx
          · exact Or.inl (Or.inr hx)
          · exact Or.inr hx
        · intro hx
          rcases hx with hx | hx
          · rcases hx with hx | hx
            · exact Or.inr (hx ▸ h)
            · exact Or.inl hx
          · exact Or.inr hx
      · rw [uniqueFirstAux, if_neg h, mem_uniqueFirstAux l (a :: acc) x]
        simp only [List.mem_cons]
        tauto

theorem mem_uniqueFirst {x : String} {l : List String} :
    x ∈ uniqueFirst l ↔ x ∈ l := by
  rw [uniqueFirst, mem_uniqueFirstAux]
  simp

theorem nodup_uniqueFirstAux :
    ∀ (l acc : List String), acc.Nodup → (uniqueFirstAux l acc).Nodup
  | [], acc, h => by simpa [uniqueFirstAux] using h
  | a :: l, acc, h => by
      by_cases ha : a ∈ acc
      · rw [uniqueFirstAux, if_pos ha]
        exact nodup_uniqueFirstAux l acc h
      · rw [uniqueFirstAux, if_neg ha]
        exact nodup_uniqueFirstAux l (a :: acc) (List.nodup_cons.mpr ⟨ha, h⟩)

theorem nodup_uniqueFirst (l : List String) : (uniqueFirst l).Nodup :=
  nodup_uniqueFirstAux l [] List.nodup_nil

theorem mem_idxDiff {x : String} {a b : List String} :
    x ∈ idxDiff a b ↔ x ∈ a ∧ x ∉ b := by
  rw [idxDiff, mem_pySortStr, mem_uniqueFirst, List.mem_filter]
  simp

theorem nodup_idxDiff (a b : List String) : (idxDiff a b).Nodup :=
  pySortStr_nodup (nodup_uniqueFirst _)

theorem sorted_idxDiff (a b : List String) :
    (idxDiff a b).Sorted (fun x y => strLe x y = true) :=
  pySortStr_sorted _

theorem idxDiff_congr {a a' b b' : List String}
    (ha : ∀ x, x ∈ a ↔ x ∈ a') (hb : ∀ x, x ∈ b ↔ x ∈ b') :
    idxDiff a b = idxDiff a' b' := by
  refine List.eq_of_perm_of_sorted ?_ (sorted_idxDiff a b) (sorted_idxDiff a' b')
  rw [List.perm_ext_iff_of_nodup (nodup_idxDiff a b) (nodup_idxDiff a' b')]
  intro x
  rw [mem_idxDiff, mem_idxDiff, ha x, hb x]

theorem mem_idxInter {x : String} {a b : List String} :
    x ∈ idxInter a b ↔ x ∈ a ∧ x ∈ b := by
  rw [idxInter, mem_uniqueFirst, List.mem_filter]
  simp

theorem nodup_idxInter (a b : List String) : (idxInter a b).Nodup :=
  nodup_uniqueFirst _

/-! ### Row lookup lemmas -/

def defaultRow : Row := ⟨"", "", 0, 0, 0, ""⟩

/-- The unique row carrying key `k`, when the frame's index is unique and
`k` occurs in it (junk default otherwise). -/
def getRow (rows : List Row) (k : String) : Row :=
  (rows.filter (fun r => r.stock_id == k)).headD defaultRow

theorem mem_locRows {r : Row} {rows : List Row} {keys : List String} :
    r ∈ locRows rows keys ↔ r ∈ rows ∧ r.stock_id ∈ keys := by
  simp only [locRows, List.mem_flatMap, List.mem_filter, beq_iff_eq]
  constructor
  · rintro ⟨k, hk, hr, rfl⟩
    exact ⟨hr, hk⟩
  · rintro ⟨hr, hk⟩
    exact ⟨r.stock_id, hk, hr, rfl⟩

theorem filter_stockId_length_le_one {rows : List Row} {k : String}
    (h : (keysOf rows).Nodup) :
    (rows.filter (fun r => r.stock_id == k)).length ≤ 1 := by
  induction rows with
  | nil => simp
  | cons r rows ih =>
      rw [keysOf, List.map_cons, List.nodup_cons] at h
      by_cases hk : r.stock_id = k
      · rw [List.filter_cons_of_pos (by simpa using hk)]
        have hnil : rows.filter (fun x => x.stock_id == k) = [] := by
          apply List.filter_eq_nil_iff.mpr
          intro x hx
          simp only [beq_iff_eq]
          intro he
          apply h.1
          have hrx : r.stock_id = x.stock_id := by rw [hk, he]
          rw [hrx]
          exact List.mem_map_of_mem _ hx
        rw [hnil]
        simp
      · rw [List.filter_cons_of_neg (by simpa using hk)]
        exact ih h.2

theorem filter_stockId_eq_nil {rows : List Row} {k : String}
    (h : k ∉ keysOf rows) :
    rows.filter (fun r => r.stock_id == k) = [] := by
  apply List.filter_eq_nil_iff.mpr
  intro x hx
  simp only [beq_iff_eq]
  intro he
  exact h (he ▸ List.mem_map_of_mem _ hx)

theorem filter_stockId_ne_nil {rows : List Row} {k : String}
    (h : k ∈ keysOf rows) :
    rows.filter (fun r => r.stock_id == k) ≠ [] := by
  rw [keysOf, List.mem_map] at h
  obtain ⟨r, hr, rfl⟩ := h
  intro hnil
  have : r ∈ rows.filter (fun x => x.stock_id == r.stock_id) :=
    List.mem_filter.mpr ⟨hr, by simp⟩
  rw [hnil] at this
  exact List.not_mem_nil r this

theorem filter_stockId_eq_getRow {rows : List Row} {k : String}
    (hnd : (keysOf rows).Nodup) (hk : k ∈ keysOf rows) :
    rows.filter (fun r => r.stock_id == k) = [getRow rows k] := by
  have hle := filter_stockId_length_le_one (k := k) hnd
  have hne := filter_stockId_ne_nil (k := k) hk
  rcases hfil : rows.filter (fun r => r.stock_id == k) with _ | ⟨a, t⟩
  · exact absurd hfil hne
  · rcases t with _ | ⟨b, t⟩
    · rw [getRow, hfil]
      rfl
    · rw [hfil] at hle
      simp at hle

theorem getRow_mem {rows : List Row} {k : String} (hk : k ∈ keysOf rows) :
    getRow rows k ∈ rows := by
  have hne := filter_stockId_ne_nil (k := k) hk
  rcases hfil : rows.filter (fun r => r.stock_id == k) with _ | ⟨a, t⟩
  · exact absurd hfil hne
  · have : getRow rows k = a := by rw [getRow, hfil]; rfl
    rw [this]
    have : a ∈ rows.filter (fun r => r.stock_id == k) := by
      rw [hfil]; exact List.mem_cons_self a t
    exact (List.mem_filter.mp this).1

theorem getRow_stock_id {rows : List Row} {k : String}
    (hk : k ∈ keysOf rows) :
    (getRow rows k).stock_id = k := by
  have hne := filter_stockId_ne_nil (k := k) hk
  rcases hfil : rows.filter (fun r => r.stock_id == k) with _ | ⟨a, t⟩
  · exact absurd hfil hne
  · have hg : getRow rows k = a := by rw [getRow, hfil]; rfl
    have : a ∈ rows.filter (fun r => r.stock_id == k) := by
      rw [hfil]; exact List.mem_cons_self a t
    have := (List.mem_filter.mp this).2
    rw [hg]
    exact beq_iff_eq.mp this

theorem locRows_eq_map {rows : List Row} {keys : List String}
    (hnd : (keysOf rows).Nodup) (hsub : ∀ k ∈ keys, k ∈ keysOf rows) :
    locRows rows keys = keys.map (getRow rows) := by
  induction keys with
  | nil => rfl
  | cons k keys ih =>
      rw [locRows, List.flatMap_cons,
        filter_stockId_eq_getRow hnd (hsub k (List.mem_cons_self k keys)),
        List.map_cons]
      rw [locRows] at ih
      rw [ih (fun x hx => hsub x (List.mem_cons_of_mem k hx))]
      rfl

theorem filter_stockId_perm_eq {rows rows' : List Row} {k : String}
    (hp : List.Perm rows' rows) (hnd : (keysOf rows).Nodup) :
    rows'.filter (fun r => r.stock_id == k) =
      rows.filter (fun r => r.stock_id == k) := by
  have hperm := hp.filter (fun r => r.stock_id == k)
  have hle := filter_stockId_length_le_one (k := k) hnd
  rcases hfil : rows.filter (fun r => r.stock_id == k) with _ | ⟨a, t⟩
  · rw [hfil] at hperm
    rw [hfil]
    exact hperm.eq_nil
  · rcases t with _ | ⟨b, t⟩
    · rw [hfil] at hperm
      rw [hfil]
      exact List.perm_singleton.mp hperm
    · rw [hfil] at hle
      simp at hle

theorem locRows_perm_eq {rows rows' : List Row} {keys : List String}
    (hp : List.Perm rows' rows) (hnd : (keysOf rows).Nodup) :
    locRows rows' keys = locRows rows keys := by
  induction keys with
  | nil => rfl
  | cons k keys ih =>
      rw [locRows, List.flatMap_cons, filter_stockId_perm_eq hp hnd]
      rw [locRows] at ih
      rw [ih]
      rfl

/-! ### sortChanged lemmas -/

theorem mem_sortChanged {x : ChangedRow} {l : List ChangedRow} :
    x ∈ sortChanged l ↔ x ∈ l := by
  rw [sortChanged, List.mem_reverse, List.mem_insertionSort]

theorem sortChanged_sorted_desc (l : List ChangedRow) :
    (sortChanged l).Pairwise (fun a b => b.weight_diff ≤ a.weight_diff) := by
  rw [sortChanged, List.pairwise_reverse]
  exact List.sorted_insertionSort _ l

/-! ### Option mapM lemmas -/

theorem mapM_option_eq_none {α β : Type} {f : α → Option β} :
    ∀ {l : List α} {x : α}, x ∈ l → f x = none → l.mapM f = none := by
  intro l
  induction l with
  | nil => intro x hx; exact absurd hx (List.not_mem_nil x)
  | cons a l ih =>
      intro x hx hfx
      rw [List.mapM_cons]
      rcases List.mem_cons.mp hx with rfl | hx
      · rw [hfx]
        rfl
      · rcases hfa : f a with _ | b
        · rfl
        · have : l.mapM f = none := ih hx hfx
          rw [this]
          rfl

/-! ### compare_holdings membership -/

theorem mem_changes_iff {c p : Frame} {etf : String} {d : Delta} :
    (etf, d) ∈ (compare_holdings c p).changes ↔
      etf ∈ uniqueFirst ((ensureETF c).rows.map (·.etf)) ∧
        d = perEtfDelta (fundRows c etf) (fundRows p etf) := by
  simp only [compare_holdings, List.mem_map]
  constructor
  · rintro ⟨e, he, heq⟩
    have h1 : e = etf := congrArg Prod.fst heq
    have h2 : perEtfDelta (fundRows c e) (fundRows p e) = d :=
      congrArg Prod.snd heq
    subst h1
    exact ⟨he, h2.symm⟩
  · rintro ⟨he, rfl⟩
    exact ⟨etf, he, rfl⟩

/-! ### Concrete fixtures for the claim instances below -/

attribute [local semireducible] Rat.add Rat.sub Rat.mul Rat.inv

def rowA : Row := ⟨"AAA", "Alpha", 1000, 5, 0, "00981A"⟩

def frameWithA : Frame := ⟨true, [rowA]⟩

def emptyFrame : Frame := ⟨true, []⟩

def junkDelta : Delta := ⟨[], [], []⟩

def sidA : String := "AAA"

def tsA : String := "20240101"

def tsB : String := "20240102"

def fileA : String := "etf_holdings_20240101.csv"

def fileB : String := "etf_holdings_20240102.csv"

/-! ### C1 -/

/-- C1 counterexample: the spec's own scenario, previous = one row of
fund `00981A`, current = empty.  The claim demands a Delta for that fund
with Exited equal to all of its previous rows; `compare_holdings`
iterates only over `df_curr['ETF'].unique()` (line 192), so the result
dict is empty and the fund receives no Delta at all. -/
theorem c1_counterexample :
    (compare_holdings emptyFrame frameWithA).changes = [] := by decide

/-- C1 (amended): the diff is computed exactly for the fund identifiers
present in the current snapshot, in first-occurrence order; a fund whose
rows appear only in the previous table yields no Delta. -/
theorem c1_funds_are_current_funds (df_curr df_prev : Frame) :
    (compare_holdings df_curr df_prev).changes.map Prod.fst
      = uniqueFirst ((ensureETF df_curr).rows.map (·.etf)) := by
  simp only [compare_holdings, List.map_map]
  rw [show (Prod.fst ∘ fun e =>
      (e, perEtfDelta (fundRows df_curr e) (fundRows df_prev e))) = id from rfl,
    List.map_id]

/-! ### C4 -/

def noColFrame : Frame := ⟨false, [⟨"AAA", "Alpha", 1000, 5, 0, ""⟩]⟩

/-- C4 counterexample: an input table without the `ETF` column is mutated
by `compare_holdings` (lines 189-190 assign the column on the caller's
frame), so the table after the call differs from the table before it. -/
theorem c4_counterexample :
    (compare_holdings noColFrame emptyFrame).dfCurrAfter ≠ noColFrame := by
  decide

/-- C4 (amended): `compare_holdings` does not mutate an input that
already carries the `ETF` column; an input lacking the column is mutated
by adding it with the default fund code. -/
theorem c4_no_mutation_when_tagged (c p : Frame) (hc : c.hasETF = true)
    (hp : p.hasETF = true) :
    (compare_holdings c p).dfCurrAfter = c ∧
      (compare_holdings c p).dfPrevAfter = p := by
  constructor <;> simp [compare_holdings, ensureETF, hc, hp]

theorem c4_witness :
    (compare_holdings frameWithA frameWithA).dfCurrAfter = frameWithA ∧
      (compare_holdings frameWithA frameWithA).dfPrevAfter = frameWithA :=
  c4_no_mutation_when_tagged frameWithA frameWithA rfl rfl

/-! ### C8 -/

def noStockData : List AssetItem := [⟨"FX", none⟩]

/-- C8 counterexample: a page whose JSON parses successfully but yields
zero stock holdings (`buildHoldings = some []`) is mapped by
`fetch_holdings` to `none` (lines 95-97), the very value returned for a
request failure, so "fetched but empty" is not distinguishable from
failure. -/
theorem c8_counterexample :
    buildHoldings noStockData = some [] ∧
      fetch_holdings (FetchInput.page noStockData)
        = fetch_holdings FetchInput.reqError := by
  constructor <;> rfl

/-- C8 (amended): `fetch_holdings` returns `none` exactly when parsing
raises or when the parsed holdings list is empty; an empty result is
folded into the failure value. -/
theorem c8_none_iff (data : List AssetItem) :
    fetch_holdings (FetchInput.page data) = none ↔
      buildHoldings data = none ∨ buildHoldings data = some [] := by
  simp only [fetch_holdings]
  rcases h : buildHoldings data with _ | hs
  · simp [h]
  · rcases hs with _ | ⟨r, t⟩
    · simp [h]
    · simp [h]

/-! ### C7 -/

/-- C7: with data fetched, the snapshot write always happens; when the
post-write directory holds fewer than two snapshot files the comparison
is skipped (`comparePair = none`, the insufficient-history branch of
lines 169-170), and with at least two the pair handed to the comparison
is the last two entries of the lexicographically ascending sorted file
list (previous = `files[-2]`, current = `files[-1]`). -/
theorem c7_history_selection (dir : List String) (ts : String) :
    (monitorStep true dir ts).saved = some (snapshotName ts) ∧
      ((filesAfter dir ts).length < 2 →
        (monitorStep true dir ts).comparePair = none) ∧
      (2 ≤ (filesAfter dir ts).length →
        (monitorStep true dir ts).comparePair =
          some ((filesAfter dir ts).getD ((filesAfter dir ts).length - 2) "",
            (filesAfter dir ts).getD ((filesAfter dir ts).length - 1) "")) := by
  by_cases h : 2 ≤ (filesAfter dir ts).length
  · refine ⟨by simp [monitorStep, h], fun hlt => absurd h (by omega),
      fun _ => by simp [monitorStep, h]⟩
  · refine ⟨by simp [monitorStep, h], fun _ => by simp [monitorStep, h],
      fun hge => absurd hge h⟩

theorem c7_witness :
    (monitorStep true [] tsA).saved = some (snapshotName tsA) ∧
      (monitorStep true [] tsA).comparePair = none ∧
      (monitorStep true [fileA] tsB).comparePair = some (fileA, fileB) := by
  refine ⟨(c7_history_selection [] tsA).1,
    (c7_history_selection [] tsA).2.1 (by decide), ?_⟩
  have h := (c7_history_selection [fileA] tsB).2.2 (by decide)
  rw [h]
  decide

/-! ### C5 -/

def dupCurr : Frame :=
  ⟨true, [⟨"AAA", "a1", 1, 1, 0, "00981A"⟩, ⟨"AAA", "a2", 2, 2, 0, "00981A"⟩]⟩

def dupPrev : Frame := ⟨true, [⟨"BBB", "b", 3, 3, 0, "00981A"⟩]⟩

/-- C5 counterexample: a current table with a duplicate `security_id`
(`AAA` twice within fund `00981A`) is processed without any uniqueness
assertion: `compare_holdings` completes normally (it is a total function
because no code path of lines 181-235 raises on duplicates) and silently
keeps both duplicate rows in the Entered table; no `IntegrityError` or
any other error is surfaced. -/
theorem c5_counterexample :
    (compare_holdings dupCurr dupPrev).changes =
      [("00981A",
        ⟨[⟨"AAA", "a1", 1, 1, 0, "00981A"⟩, ⟨"AAA", "a2", 2, 2, 0, "00981A"⟩],
          [⟨"BBB", "b", 3, 3, 0, "00981A"⟩], []⟩)] := by
  decide

/-- C5 (amended): `compare_holdings` does not assert `security_id`
uniqueness; every current row of a processed fund whose id is absent
from the previous keys lands in Entered, duplicates included, and no
error is raised. -/
theorem c5_entered_keeps_all_rows (df_curr df_prev : Frame) (etf : String)
    (d : Delta) (r : Row)
    (hmem : (etf, d) ∈ (compare_holdings df_curr df_prev).changes)
    (hr : r ∈ fundRows df_curr etf)
    (hnp : r.stock_id ∉ keysOf (fundRows df_prev etf)) :
    r ∈ d.new := by
  obtain ⟨-, rfl⟩ := mem_changes_iff.mp hmem
  show r ∈ locRows (fundRows df_curr etf)
    (idxDiff (keysOf (fundRows df_curr etf)) (keysOf (fundRows df_prev etf)))
  exact mem_locRows.mpr
    ⟨hr, mem_idxDiff.mpr ⟨List.mem_map_of_mem _ hr, hnp⟩⟩

theorem c5_witness :
    (⟨"AAA", "a1", 1, 1, 0, "00981A"⟩ : Row) ∈
      ((compare_holdings dupCurr dupPrev).changes.headD
        ("", junkDelta)).2.new :=
  c5_entered_keeps_all_rows dupCurr dupPrev DEFAULT_ETF _ _
    (by decide) (by decide) (by decide)

/-! ### C6 -/

def goodDetail : Detail := ⟨"AAA", "Alpha", some 100, some 5, some 500⟩

def badDetail : Detail := ⟨"BBB", "Beta", none, some 2, some 200⟩

def mixedData : List AssetItem := [⟨"ST", some [goodDetail, badDetail]⟩]

/-- C6 counterexample: a fund page with one well-formed detail and one
detail whose `Share` is non-numeric.  The claim demands that only the bad
row be skipped (with a `MalformedRow` signal) while the rest completes;
the code's `float(...)` raises inside the `try` block, which returns
`None` for the whole fund (lines 90, 101-104): the parseable row is lost
too, and nothing names the offending security or field. -/
theorem c6_counterexample :
    parseDetail goodDetail = some ⟨"AAA", "Alpha", 100, 5, 500, ""⟩ ∧
      fetch_holdings (FetchInput.page mixedData) = none := by
  constructor <;> rfl

/-- C6 (amended): a malformed numeric field in any parsed detail of the
fund aborts the whole fund's fetch: `fetch_holdings` returns `none`;
there is no per-row skip and no `MalformedRow` signal. -/
theorem c6_malformed_aborts_fund (data : List AssetItem) (it : AssetItem)
    (ds : List Detail) (dtl : Detail)
    (hit : it ∈ data) (hst : it.assetCode = "ST")
    (hds : it.details = some ds) (hdtl : dtl ∈ ds)
    (hbad : dtl.share = none ∨ dtl.navRate = none ∨ dtl.amount = none) :
    fetch_holdings (FetchInput.page data) = none := by
  have hpd : parseDetail dtl = none := by
    rcases hbad with h | h | h
    · simp [parseDetail, h]
    · rcases hs : dtl.share with _ | s <;> simp [parseDetail, h, hs]
    · rcases hs : dtl.share with _ | s <;>
        rcases hw : dtl.navRate with _ | w <;> simp [parseDetail, h, hs, hw]
  have hpi : parseItem it = none := by
    rw [parseItem, if_pos (by simp [hst]), hds]
    exact mapM_option_eq_none hdtl hpd
  have hb : buildHoldings data = none := by
    rw [buildHoldings, mapM_option_eq_none hit hpi]
    rfl
  simp [fetch_holdings, hb]

theorem c6_witness : fetch_holdings (FetchInput.page mixedData) = none :=
  c6_malformed_aborts_fund mixedData ⟨"ST", some [goodDetail, badDetail]⟩
    [goodDetail, badDetail] badDetail (by decide) rfl rfl (by decide)
    (Or.inl rfl)

/-! ### Delta key-set lemmas -/

theorem map_getRow_ids {rows : List Row} {keys : List String}
    (hsub : ∀ k ∈ keys, k ∈ keysOf rows) :
    (keys.map (getRow rows)).map (·.stock_id) = keys := by
  induction keys with
  | nil => rfl
  | cons k keys ih =>
      simp only [List.map_cons]
      rw [getRow_stock_id (hsub k (List.mem_cons_self k keys)),
        ih (fun x hx => hsub x (List.mem_cons_of_mem k hx))]

theorem mem_new_ids {curr prev : List Row} {s : String} :
    s ∈ (perEtfDelta curr prev).new.map (·.stock_id) ↔
      s ∈ keysOf curr ∧ s ∉ keysOf prev := by
  show s ∈ (locRows curr
      (idxDiff (keysOf curr) (keysOf prev))).map (·.stock_id) ↔ _
  rw [List.mem_map]
  constructor
  · rintro ⟨r, hr, rfl⟩
    exact mem_idxDiff.mp (mem_locRows.mp hr).2
  · rintro ⟨hc, hp⟩
    have hc2 := hc
    rw [keysOf, List.mem_map] at hc2
    obtain ⟨r, hr, rfl⟩ := hc2
    exact ⟨r, mem_locRows.mpr ⟨hr, mem_idxDiff.mpr ⟨hc, hp⟩⟩, rfl⟩

theorem mem_exit_ids {curr prev : List Row} {s : String} :
    s ∈ (perEtfDelta curr prev).exit.map (·.stock_id) ↔
      s ∈ keysOf prev ∧ s ∉ keysOf curr := by
  show s ∈ (locRows prev
      (idxDiff (keysOf prev) (keysOf curr))).map (·.stock_id) ↔ _
  rw [List.mem_map]
  constructor
  · rintro ⟨r, hr, rfl⟩
    exact mem_idxDiff.mp (mem_locRows.mp hr).2
  · rintro ⟨hp, hc⟩
    have hp2 := hp
    rw [keysOf, List.mem_map] at hp2
    obtain ⟨r, hr, rfl⟩ := hp2
    exact ⟨r, mem_locRows.mpr ⟨hr, mem_idxDiff.mpr ⟨hp, hc⟩⟩, rfl⟩

theorem new_ids_eq {curr prev : List Row} (hc : (keysOf curr).Nodup) :
    (perEtfDelta curr prev).new.map (·.stock_id)
      = idxDiff (keysOf curr) (keysOf prev) := by
  show (locRows curr (idxDiff (keysOf curr) (keysOf prev))).map (·.stock_id)
      = _
  rw [locRows_eq_map hc (fun k hk => (mem_idxDiff.mp hk).1)]
  exact map_getRow_ids (fun k hk => (mem_idxDiff.mp hk).1)

theorem exit_ids_eq {curr prev : List Row} (hp : (keysOf prev).Nodup) :
    (perEtfDelta curr prev).exit.map (·.stock_id)
      = idxDiff (keysOf prev) (keysOf curr) := by
  show (locRows prev (idxDiff (keysOf prev) (keysOf curr))).map (·.stock_id)
      = _
  rw [locRows_eq_map hp (fun k hk => (mem_idxDiff.mp hk).1)]
  exact map_getRow_ids (fun k hk => (mem_idxDiff.mp hk).1)

/-! ### C9 -/

/-- C9: for every fund in the result, the Entered and Exited key sets are
disjoint, and Entered together with the common keys and the
previous-only keys covers exactly the union of the current and previous
key sets of that fund. -/
theorem c9_delta_partition (df_curr df_prev : Frame) (etf : String)
    (d : Delta)
    (hmem : (etf, d) ∈ (compare_holdings df_curr df_prev).changes) :
    (d.new.map (·.stock_id)).toFinset ∩ (d.exit.map (·.stock_id)).toFinset
        = ∅ ∧
      (d.new.map (·.stock_id)).toFinset
          ∪ ((keysOf (fundRows df_curr etf)).toFinset
              ∩ (keysOf (fundRows df_prev etf)).toFinset)
          ∪ ((keysOf (fundRows df_prev etf)).toFinset
              \ (keysOf (fundRows df_curr etf)).toFinset)
        = (keysOf (fundRows df_curr etf)).toFinset
            ∪ (keysOf (fundRows df_prev etf)).toFinset := by
  obtain ⟨-, rfl⟩ := mem_changes_iff.mp hmem
  constructor
  · apply Finset.eq_empty_iff_forall_not_mem.mpr
    intro s hs
    rw [Finset.mem_inter, List.mem_toFinset, List.mem_toFinset] at hs
    exact (mem_new_ids.mp hs.1).2 (mem_exit_ids.mp hs.2).1
  · ext s
    simp only [Finset.mem_union, Finset.mem_inter, Finset.mem_sdiff,
      List.mem_toFinset, mem_new_ids]
    constructor
    · rintro ((h | h) | h)
      · exact Or.inl h.1
      · exact Or.inl h.1
      · exact Or.inr h.1
    · intro h
      by_cases hc : s ∈ keysOf (fundRows df_curr etf) <;>
        by_cases hp : s ∈ keysOf (fundRows df_prev etf)
      · exact Or.inl (Or.inr ⟨hc, hp⟩)
      · exact Or.inl (Or.inl ⟨hc, hp⟩)
      · exact Or.inr ⟨hp, hc⟩
      · rcases h with h | h
        · exact absurd h hc
        · exact absurd h hp

theorem c9_witness :
    ((((compare_holdings frameWithA frameWithA).changes.headD
          ("", junkDelta)).2.new.map (·.stock_id)).toFinset
        ∩ (((compare_holdings frameWithA frameWithA).changes.headD
          ("", junkDelta)).2.exit.map (·.stock_id)).toFinset = ∅) ∧
      ((((compare_holdings frameWithA frameWithA).changes.headD
            ("", junkDelta)).2.new.map (·.stock_id)).toFinset
          ∪ ((keysOf (fundRows frameWithA DEFAULT_ETF)).toFinset
              ∩ (keysOf (fundRows frameWithA DEFAULT_ETF)).toFinset)
          ∪ ((keysOf (fundRows frameWithA DEFAULT_ETF)).toFinset
              \ (keysOf (fundRows frameWithA DEFAULT_ETF)).toFinset)
        = (keysOf (fundRows frameWithA DEFAULT_ETF)).toFinset
            ∪ (keysOf (fundRows frameWithA DEFAULT_ETF)).toFinset) :=
  c9_delta_partition frameWithA frameWithA DEFAULT_ETF _ (by decide)

/-! ### C3 -/

def c3curr : Frame :=
  ⟨true, [⟨"AAA", "a", 100, 5, 0, "00981A"⟩,
    ⟨"BBB", "b", 200, 6, 0, "00981A"⟩]⟩

def c3currR : Frame :=
  ⟨true, [⟨"BBB", "b", 200, 6, 0, "00981A"⟩,
    ⟨"AAA", "a", 100, 5, 0, "00981A"⟩]⟩

def c3prev : Frame :=
  ⟨true, [⟨"AAA", "a", 100, 4, 0, "00981A"⟩,
    ⟨"BBB", "b", 200, 5, 0, "00981A"⟩]⟩

/-- C3 counterexample: both common rows have the same `weight_diff` (+1),
so the claim requires tie-break by `security_id` ascending
(`["AAA", "BBB"]`) independent of input order.  The code sorts only by
`weight_diff` (line 232, an ascending stable sort reversed by pandas for
`ascending=False`): with current rows in the order `AAA, BBB` the tied
rows come out as `["BBB", "AAA"]`, and with the same rows in the opposite
order they come out as `["AAA", "BBB"]` — neither deterministically
id-ascending, and the order flips under input reordering. -/
theorem c3_counterexample :
    ((compare_holdings c3curr c3prev).changes.headD
        ("", junkDelta)).2.changed.map (·.stock_id) = ["BBB", "AAA"] ∧
      ((compare_holdings c3currR c3prev).changes.headD
        ("", junkDelta)).2.changed.map (·.stock_id) = ["AAA", "BBB"] ∧
      ((compare_holdings c3curr c3prev).changes.headD
        ("", junkDelta)).2.changed.map (·.weight_diff) = [1, 1] := by
  refine ⟨?_, ?_, ?_⟩ <;> decide

/-- C3 (amended): the Changed rows of every fund's Delta are sorted by
`weight_diff` descending, but ties are not broken by `security_id`: tied
rows keep an order derived from the input row order (the reverse of the
stable ascending sort), so the order is not invariant under input
reordering. -/
theorem c3_changed_sorted_desc (df_curr df_prev : Frame) (etf : String)
    (d : Delta)
    (hmem : (etf, d) ∈ (compare_holdings df_curr df_prev).changes) :
    d.changed.Pairwise (fun a b => b.weight_diff ≤ a.weight_diff) := by
  obtain ⟨-, rfl⟩ := mem_changes_iff.mp hmem
  exact sortChanged_sorted_desc _

theorem c3_witness :
    ((compare_holdings c3curr c3prev).changes.headD
        ("", junkDelta)).2.changed.Pairwise
      (fun a b => b.weight_diff ≤ a.weight_diff) :=
  c3_changed_sorted_desc c3curr c3prev DEFAULT_ETF _ (by decide)

/-! ### C2 -/

theorem WEIGHT_EPSILON_eq : WEIGHT_EPSILON = 1 / 1000 := by
  rw [WEIGHT_EPSILON, Rat.divInt_eq_div]
  norm_num

theorem perEtf_changed_iff {curr prev : List Row}
    (hc : (keysOf curr).Nodup) (hp : (keysOf prev).Nodup)
    {sid : String} (hkc : sid ∈ keysOf curr) (hkp : sid ∈ keysOf prev) :
    (∃ ch ∈ (perEtfDelta curr prev).changed, ch.stock_id = sid) ↔
      (|(getRow curr sid).weight - (getRow prev sid).weight| > WEIGHT_EPSILON
        ∨ (getRow curr sid).shares - (getRow prev sid).shares ≠ 0) := by
  have hcsub : ∀ k ∈ idxInter (keysOf curr) (keysOf prev), k ∈ keysOf curr :=
    fun k hk => (mem_idxInter.mp hk).1
  have hpsub : ∀ k ∈ idxInter (keysOf curr) (keysOf prev), k ∈ keysOf prev :=
    fun k hk => (mem_idxInter.mp hk).2
  have hzip :
      (locRows curr (idxInter (keysOf curr) (keysOf prev))).zip
          (locRows prev (idxInter (keysOf curr) (keysOf prev)))
        = (idxInter (keysOf curr) (keysOf prev)).map
            (fun k => (getRow curr k, getRow prev k)) := by
    rw [locRows_eq_map hc hcsub, locRows_eq_map hp hpsub, List.zip_map']
  have hchanged :
      (perEtfDelta curr prev).changed
        = sortChanged ((((idxInter (keysOf curr) (keysOf prev)).map
            (fun k => (getRow curr k, getRow prev k))).filter
              (fun cp => changedMask cp.1 cp.2)).map
            (fun cp => mkChangedRow cp.1 cp.2)) := by
    show sortChanged _ = _
    rw [hzip]
  rw [hchanged]
  constructor
  · rintro ⟨ch, hch, hid⟩
    rw [mem_sortChanged, List.mem_map] at hch
    obtain ⟨cp, hcp, rfl⟩ := hch
    rw [List.mem_filter] at hcp
    obtain ⟨hcpmem, hmask⟩ := hcp
    rw [List.mem_map] at hcpmem
    obtain ⟨k, hk, rfl⟩ := hcpmem
    have hid2 : (getRow curr k).stock_id = sid := hid
    rw [getRow_stock_id (hcsub k hk)] at hid2
    subst hid2
    simp only [changedMask, decide_eq_true_eq] at hmask
    rcases hmask with h | h
    · exact Or.inl h
    · exact Or.inr (abs_pos.mp h)
  · intro h
    have hsid : sid ∈ idxInter (keysOf curr) (keysOf prev) :=
      mem_idxInter.mpr ⟨hkc, hkp⟩
    refine ⟨mkChangedRow (getRow curr sid) (getRow prev sid), ?_, ?_⟩
    · rw [mem_sortChanged, List.mem_map]
      refine ⟨(getRow curr sid, getRow prev sid), ?_, rfl⟩
      rw [List.mem_filter]
      refine ⟨List.mem_map_of_mem _ hsid, ?_⟩
      simp only [changedMask, decide_eq_true_eq]
      rcases h with h | h
      · exact Or.inl h
      · exact Or.inr (abs_pos.mpr h)
    · exact getRow_stock_id hkc

/-- C2: for every pair of snapshots whose per-fund indexes are unique and
every security id present in both sides of a fund of the result, the row
is classified as Changed iff the absolute weight difference exceeds
`0.001` or the share difference is nonzero. -/
theorem c2_changed_iff (df_curr df_prev : Frame) (etf sid : String)
    (d : Delta)
    (hcN : (keysOf (fundRows df_curr etf)).Nodup)
    (hpN : (keysOf (fundRows df_prev etf)).Nodup)
    (hmem : (etf, d) ∈ (compare_holdings df_curr df_prev).changes)
    (hkc : sid ∈ keysOf (fundRows df_curr etf))
    (hkp : sid ∈ keysOf (fundRows df_prev etf)) :
    (∃ ch ∈ d.changed, ch.stock_id = sid) ↔
      (|(getRow (fundRows df_curr etf) sid).weight
          - (getRow (fundRows df_prev etf) sid).weight| > 1 / 1000
        ∨ (getRow (fundRows df_curr etf) sid).shares
            - (getRow (fundRows df_prev etf) sid).shares ≠ 0) := by
  obtain ⟨-, rfl⟩ := mem_changes_iff.mp hmem
  rw [← WEIGHT_EPSILON_eq]
  exact perEtf_changed_iff hcN hpN hkc hkp

def c2curr : Frame :=
  ⟨true, [⟨"AAA", "Alpha", 1000, Rat.divInt 50011 10000, 0, "00981A"⟩]⟩

def c2prev : Frame := ⟨true, [⟨"AAA", "Alpha", 1000, 5, 0, "00981A"⟩]⟩

theorem c2_witness :
    ∃ ch ∈ ((compare_holdings c2curr c2prev).changes.headD
      ("", junkDelta)).2.changed, ch.stock_id = sidA := by
  apply (c2_changed_iff c2curr c2prev DEFAULT_ETF sidA _
    (by decide) (by decide) (by decide) (by decide) (by decide)).mpr
  rw [← WEIGHT_EPSILON_eq]
  decide

/-! ### C10 -/

theorem fundRows_perm {c c2 : Frame} (hE : c2.hasETF = c.hasETF)
    (hP : List.Perm c2.rows c.rows) (etf : String) :
    List.Perm (fundRows c2 etf) (fundRows c etf) := by
  rw [fundRows, fundRows, ensureETF, ensureETF, hE]
  by_cases h : c.hasETF = true
  · rw [if_pos h, if_pos h]
    exact hP.filter _
  · rw [if_neg h, if_neg h]
    exact (hP.map _).filter _

theorem perEtf_new_exit_perm_eq {curr prev curr2 prev2 : List Row}
    (hcP : List.Perm curr2 curr) (hpP : List.Perm prev2 prev)
    (hc : (keysOf curr).Nodup) (hp : (keysOf prev).Nodup) :
    (perEtfDelta curr2 prev2).new = (perEtfDelta curr prev).new ∧
      (perEtfDelta curr2 prev2).exit = (perEtfDelta curr prev).exit := by
  have hkc : ∀ x, x ∈ keysOf curr2 ↔ x ∈ keysOf curr :=
    fun x => (hcP.map (·.stock_id)).mem_iff
  have hkp : ∀ x, x ∈ keysOf prev2 ↔ x ∈ keysOf prev :=
    fun x => (hpP.map (·.stock_id)).mem_iff
  constructor
  · show locRows curr2 (idxDiff (keysOf curr2) (keysOf prev2))
        = locRows curr (idxDiff (keysOf curr) (keysOf prev))
    rw [idxDiff_congr hkc hkp]
    exact locRows_perm_eq hcP hc
  · show locRows prev2 (idxDiff (keysOf prev2) (keysOf curr2))
        = locRows prev (idxDiff (keysOf prev) (keysOf curr))
    rw [idxDiff_congr hkp hkc]
    exact locRows_perm_eq hpP hp

/-- C10: with unique stock ids per fund, the Entered and Exited tables of
every fund's Delta are emitted sorted ascending by `stock_id` (pandas
`Index.difference` sorts its result), and the emitted row lists are
unchanged under any permutation of the rows of either input table. -/
theorem c10_entered_exited_sorted_invariant
    (c p c2 p2 : Frame) (etf : String) (d d2 : Delta)
    (hcE : c2.hasETF = c.hasETF) (hpE : p2.hasETF = p.hasETF)
    (hcP : List.Perm c2.rows c.rows) (hpP : List.Perm p2.rows p.rows)
    (hcN : (keysOf (fundRows c etf)).Nodup)
    (hpN : (keysOf (fundRows p etf)).Nodup)
    (hd : (etf, d) ∈ (compare_holdings c p).changes)
    (hd2 : (etf, d2) ∈ (compare_holdings c2 p2).changes) :
    (d.new.map (·.stock_id)).Sorted (fun a b => strLe a b = true) ∧
      (d.exit.map (·.stock_id)).Sorted (fun a b => strLe a b = true) ∧
      d2.new = d.new ∧ d2.exit = d.exit := by
  obtain ⟨-, rfl⟩ := mem_changes_iff.mp hd
  obtain ⟨-, rfl⟩ := mem_changes_iff.mp hd2
  have hfc := fundRows_perm hcE hcP etf
  have hfp := fundRows_perm hpE hpP etf
  have hne := perEtf_new_exit_perm_eq hfc hfp hcN hpN
  refine ⟨?_, ?_, hne.1, hne.2⟩
  · rw [new_ids_eq hcN]
    exact sorted_idxDiff _ _
  · rw [exit_ids_eq hpN]
    exact sorted_idxDiff _ _

def c10curr : Frame :=
  ⟨true, [⟨"CCC", "c", 10, 1, 0, "00981A"⟩,
    ⟨"BBB", "b", 20, 2, 0, "00981A"⟩]⟩

def c10currR : Frame :=
  ⟨true, [⟨"BBB", "b", 20, 2, 0, "00981A"⟩,
    ⟨"CCC", "c", 10, 1, 0, "00981A"⟩]⟩

theorem c10_witness :
    ((((compare_holdings c10curr frameWithA).changes.headD
          ("", junkDelta)).2.new.map (·.stock_id)).Sorted
        (fun a b => strLe a b = true) ∧
      (((compare_holdings c10curr frameWithA).changes.headD
          ("", junkDelta)).2.exit.map (·.stock_id)).Sorted
        (fun a b => strLe a b = true) ∧
      ((compare_holdings c10currR frameWithA).changes.headD
          ("", junkDelta)).2.new
        = ((compare_holdings c10curr frameWithA).changes.headD
          ("", junkDelta)).2.new ∧
      ((compare_holdings c10currR frameWithA).changes.headD
          ("", junkDelta)).2.exit
        = ((compare_holdings c10curr frameWithA).changes.headD
          ("", junkDelta)).2.exit) :=
  c10_entered_exited_sorted_invariant c10curr frameWithA c10currR frameWithA
    DEFAULT_ETF _ _ rfl rfl (List.Perm.swap _ _ _) (List.Perm.refl _)
    (by decide) (by decide) (by decide) (by decide)

end ETFMonitor
